import Mathlib

/-!
# Synthetic Data Dashboard: data and export subsystem

A shallow embedding of `src/SyntheticDataDashboard.jsx`:

* JavaScript Numbers are IEEE-754 binary64 values.  A finite double is represented by the
  exact rational it denotes; `fl` is round-to-nearest, ties-to-even, and every decimal
  literal and arithmetic operator of the source rounds its exact value with `fl`.
* JavaScript objects are association lists in `Object.keys` order.
* `Math.random` is a stream of draws, consumed in evaluation order.
* React state is an explicit `State`; handlers are functions returning the new state and
  the list of effects they trigger (link clicks, started captures, uncaught errors).
-/

namespace Dashboard

/-! ## Numbers -/

/-- Nearest integer to `y`, a tie going to the even neighbour. -/
def rne (y : ℚ) : ℤ :=
  if y - ⌊y⌋ < 1 / 2 then ⌊y⌋
  else if 1 / 2 < y - ⌊y⌋ then ⌊y⌋ + 1
  else if ⌊y⌋ % 2 = 0 then ⌊y⌋ else ⌊y⌋ + 1

/-- Binary exponent of the binade of `x` in binary64; subnormals share exponent `-1022`.
At `x = 0` the value is immaterial, since `rne 0 = 0`. -/
def expo (x : ℚ) : ℤ := max (Int.log 2 |x|) (-1022)

/-- Spacing of the doubles in the binade of `x` (53-bit significand). -/
def ulp (x : ℚ) : ℚ := (2 : ℚ) ^ (expo x - 52)

/-- Rounding of an exact result to binary64, round-to-nearest ties-to-even.
Overflow to infinity is not represented: it needs a magnitude of `2 ^ 1024`. -/
def fl (x : ℚ) : ℚ := rne (x / ulp x) * ulp x

/-- The rational `x` is the value of a finite double. -/
def isDouble (x : ℚ) : Prop := fl x = x ∧ |x| < 2 ^ 1024

instance (x : ℚ) : Decidable (isDouble x) := by
  unfold isDouble; infer_instance

/-- JavaScript `a * b` on Numbers. -/
def fmul (a b : ℚ) : ℚ := fl (a * b)

/-- JavaScript `a + b` on Numbers. -/
def fadd (a b : ℚ) : ℚ := fl (a + b)

/-- The function `Math.floor`; exact on doubles. -/
def mathFloor (x : ℚ) : ℚ := (⌊x⌋ : ℤ)

/-! ## Values and objects -/

/-- A thrown error object. -/
structure JsError where
  name : String
  message : String
  deriving DecidableEq

/-- A JavaScript value, as far as this program can tell values apart: the primitives, and
an object (array, function, date, ...) given by what string conversion does on it, since
the program only ever joins record values into text and compares them with strings.
`num` is a finite Number (negative zero is not kept apart from zero; both print `0`). -/
inductive Value where
  | undefined
  | null
  | bool (b : Bool)
  | num (x : ℚ)
  | nan
  | infinity (negative : Bool)
  | bigint (n : ℤ)
  | str (s : String)
  | symbol (description : String)
  | object (text : String)
  | objectThrowing (e : JsError)
  deriving DecidableEq

/-- A record: a plain object given by its own enumerable properties, in `Object.keys`
order, each with the value a read of it returns. -/
abbrev JsObject := List (String × Value)

/-- The function `Object.keys(o)`. -/
def JsObject.keys (o : JsObject) : List String := o.map Prod.fst

/-- Property read `o[k]`: the own property when there is one; otherwise `undefined`, the
prototype chain of a record being taken to hold no property of that name. -/
def JsObject.get (o : JsObject) (k : String) : Value := (o.lookup k).getD Value.undefined

/-- The error of an implicit string conversion of a Symbol. -/
def symbolToString : JsError :=
  { name := "TypeError", message := "Cannot convert a Symbol value to a string" }

/-- The exception `ToString(v)` throws, if it throws. -/
def Value.toStringError : Value → Option JsError
  | Value.symbol _ => some symbolToString
  | Value.objectThrowing e => some e
  | _ => none

/-- The text an element contributes to `Array.prototype.join` when its conversion does not
throw: nothing for `undefined` and `null`, `ToString` of every other value.  An integral
Number below `2 ^ 53` in magnitude prints as its decimal digits; `numText` is the runtime's
`Number::toString` for every other finite Number. -/
def Value.toText (numText : ℚ → String) : Value → String
  | Value.undefined => ""
  | Value.null => ""
  | Value.bool b => if b then "true" else "false"
  | Value.num x => if x.den = 1 ∧ |x.num| < 2 ^ 53 then toString x.num else numText x
  | Value.nan => "NaN"
  | Value.infinity negative => if negative then "-Infinity" else "Infinity"
  | Value.bigint n => toString n
  | Value.str s => s
  | Value.symbol _ => ""
  | Value.object text => text
  | Value.objectThrowing _ => ""

/-- `Array.prototype.join`: the elements are converted from left to right, the first
exception ends the call, otherwise the texts are concatenated with the separator. -/
def join (numText : ℚ → String) (sep : String) (xs : List Value) : Except JsError String :=
  match xs.findSome? Value.toStringError with
  | some e => Except.error e
  | none => Except.ok (sep.intercalate (xs.map (Value.toText numText)))

/-- `Array.prototype.includes` on an array of strings: only a string can be found. -/
def includes (xs : List String) : Value → Bool
  | Value.str s => decide (s ∈ xs)
  | _ => false

/-! ## Dataset generator -/

def monthNames : List String :=
  ["January", "February", "March", "April", "May", "June",
   "July", "August", "September", "October", "November", "December"]

/-- Array index read `monthNames[i]`. -/
def monthAt (i : ℕ) : Value :=
  match monthNames[i]? with
  | some m => Value.str m
  | none => Value.undefined

/-- The object literal pushed by one loop iteration; `k` draws were consumed before it. -/
def newRecord (random : ℕ → ℚ) (i k : ℕ) : JsObject :=
  [("month", monthAt i),
   ("realAccuracy", Value.num (fadd (fl (8 / 10)) (fmul (random k) (fl (1 / 10))))),
   ("syntheticAccuracy",
      Value.num (fadd (fl (85 / 100)) (fmul (random (k + 1)) (fl (5 / 100))))),
   ("threatsDetected", Value.num (mathFloor (fmul (random (k + 2)) 100)))]

/-- The loop `for (let i = 0; i < 12; i++) data.push(...)`, threading the array built so
far and the number of draws consumed. -/
def generateSyntheticData (random : ℕ → ℚ) : List JsObject :=
  ((List.range 12).foldl
    (fun (acc : List JsObject × ℕ) i => (acc.1 ++ [newRecord random i acc.2], acc.2 + 3))
    ([], 0)).1

/-! ## Period filter -/

/-- The `setSelectedRange` updater of the checkbox `onChange` handler. -/
def toggle (value : String) (prev : List String) : List String :=
  if value ∈ prev then prev.filter (fun m => decide (m ≠ value)) else prev ++ [value]

/-- The derived view `data.filter((d) => selectedRange.includes(d.month))`. -/
def filteredData (data : List JsObject) (selectedRange : List String) : List JsObject :=
  data.filter fun d => includes selectedRange (d.get "month")

/-! ## Exporters -/

structure Blob where
  content : String
  type : String
  deriving DecidableEq

/-- A rendered DOM node held by a ref. -/
structure Surface where
  node : ℕ
  deriving DecidableEq

inductive Href where
  | objectUrl (blob : Blob)
  | dataUrl (url : String)
  deriving DecidableEq

inductive Effect where
  | linkClick (download : String) (href : Href)
  | toPng (node : Surface) (filename : String)
  | consoleError (message : String) (err : String)
  | uncaught (e : JsError)
  deriving DecidableEq

/-- The error of `Object.keys(undefined)`. -/
def keysOfUndefined : JsError :=
  { name := "TypeError", message := "Cannot convert undefined or null to object" }

/-- The text `csvContent` of `downloadCSV`; reading `data[0]` of an empty array gives
`undefined`, on which `Object.keys` throws, and an exception of an inner `join` ends the
call. -/
def csvContent (numText : ℚ → String) (data : List JsObject) : Except JsError String :=
  match data[0]? with
  | none => Except.error keysOfUndefined
  | some first =>
    let headers := first.keys
    let rows := data.map fun row => headers.map fun header => row.get header
    match (headers.map Value.str :: rows).mapM fun e => join numText "," e with
    | Except.error e => Except.error e
    | Except.ok lines => Except.ok ("\n".intercalate lines)

/-- The handler `downloadCSV(data)`: the effects it triggers. -/
def downloadCSV (numText : ℚ → String) (data : List JsObject) : List Effect :=
  match csvContent numText data with
  | Except.error e => [Effect.uncaught e]
  | Except.ok text =>
    [Effect.linkClick "synthetic_data.csv" (Href.objectUrl { content := text, type := "text/csv" })]

/-- The CSV text in the words of the specification: the first record's field names joined
by a comma, then, for each record in input order, a newline followed by that record's values
as plain text (`Value.toText`), in the header's column order, joined by a comma. -/
def csvText (numText : ℚ → String) (first : JsObject) (rest : List JsObject) : String :=
  (first :: rest).foldl
    (fun text r =>
      text ++ "\n" ++ ",".intercalate ((first.keys.filterMap r.lookup).map (Value.toText numText)))
    (",".intercalate first.keys)

/-- The synchronous part of `exportChart(ref, filename)`; `current` is `ref.current`. -/
def exportChart (current : Option Surface) (filename : String) : List Effect :=
  match current with
  | none => []
  | some node => [Effect.toPng node filename]

/-- The `.then` / `.catch` continuation of the capture started by `exportChart`. -/
def exportChartSettled (filename : String) (outcome : Except String String) : List Effect :=
  match outcome with
  | Except.ok dataUrl => [Effect.linkClick filename (Href.dataUrl dataUrl)]
  | Except.error err => [Effect.consoleError "Export failed" err]

/-! ## Component state -/

structure State where
  data : List JsObject
  selectedRange : List String
  deriving DecidableEq

/-- State of the first render: `useState([])`, `useState(monthNames)`. -/
def initial : State := { data := [], selectedRange := monthNames }

inductive Event where
  | mounted (random : ℕ → ℚ)
  | regenerate (random : ℕ → ℚ)
  | change (value : String)
  | clickDownloadCSV
  | clickExportPng (current : Option Surface) (filename : String)

/-- One event handled to completion: the next state and the effects triggered. -/
def step (numText : ℚ → String) (st : State) : Event → State × List Effect
  | Event.mounted random => ({ st with data := generateSyntheticData random }, [])
  | Event.regenerate random => ({ st with data := generateSyntheticData random }, [])
  | Event.change value => ({ st with selectedRange := toggle value st.selectedRange }, [])
  | Event.clickDownloadCSV => (st, downloadCSV numText st.data)
  | Event.clickExportPng current filename => (st, exportChart current filename)


/-! ## Shared lemmas -/

theorem generateSyntheticData_eq (random : ℕ → ℚ) :
    generateSyntheticData random = (List.range 12).map fun i => newRecord random i (3 * i) := by
  rfl

theorem mem_toggle_self (p : String) (s : List String) : p ∈ toggle p s ↔ p ∉ s := by
  unfold toggle
  by_cases h : p ∈ s <;> simp [h]

theorem mem_toggle_of_ne {p q : String} (s : List String) (h : q ≠ p) :
    q ∈ toggle p s ↔ q ∈ s := by
  unfold toggle
  by_cases hp : p ∈ s <;> simp [hp, h]

theorem mem_toggle_toggle (p q : String) (s : List String) :
    q ∈ toggle p (toggle p s) ↔ q ∈ s := by
  by_cases h : q = p
  · subst h
    rw [mem_toggle_self, mem_toggle_self, not_not]
  · rw [mem_toggle_of_ne _ h, mem_toggle_of_ne _ h]

/-- Two toggles of an unselected period give back the very same array. -/
theorem toggle_toggle_of_not_mem {p : String} {s : List String} (h : p ∉ s) :
    toggle p (toggle p s) = s := by
  have h1 : toggle p s = s ++ [p] := by simp [toggle, h]
  have h2 : s.filter (fun m => decide (m ≠ p)) = s := by
    rw [List.filter_eq_self]
    intro a ha
    have : a ≠ p := fun e => h (e ▸ ha)
    simpa using this
  have h3 : p ∈ s ++ [p] := List.mem_append_right _ (List.mem_singleton_self p)
  rw [h1]
  unfold toggle
  rw [if_pos h3, List.filter_append, h2]
  simp

/-- Two toggles of a selected period give the array without it, followed by it. -/
theorem toggle_toggle_of_mem {p : String} {s : List String} (h : p ∈ s) :
    toggle p (toggle p s) = s.filter (fun m => decide (m ≠ p)) ++ [p] := by
  have h1 : toggle p s = s.filter (fun m => decide (m ≠ p)) := by simp [toggle, h]
  have h2 : p ∉ s.filter (fun m => decide (m ≠ p)) := by simp [List.mem_filter]
  rw [h1]
  unfold toggle
  rw [if_neg h2]

theorem includes_congr {s t : List String} (h : ∀ q, q ∈ s ↔ q ∈ t) (v : Value) :
    includes s v = includes t v := by
  cases v <;> simp [includes, h]

theorem filteredData_congr {s t : List String} (h : ∀ q, q ∈ s ↔ q ∈ t) (D : List JsObject) :
    filteredData D s = filteredData D t := by
  unfold filteredData
  congr 1
  funext d
  exact includes_congr h _

theorem month_of_generated (random : ℕ → ℚ) :
    ∀ d ∈ generateSyntheticData random, ∃ m ∈ monthNames, d.get "month" = Value.str m := by
  intro d hd
  rw [generateSyntheticData_eq] at hd
  simp only [List.mem_map, List.mem_range] at hd
  obtain ⟨i, hi, rfl⟩ := hd
  interval_cases i <;> simp [newRecord, monthAt, monthNames, JsObject.get, List.lookup]

theorem filteredData_of_all_selected (D : List JsObject) (s : List String)
    (h : ∀ d ∈ D, ∃ m ∈ s, d.get "month" = Value.str m) : filteredData D s = D := by
  unfold filteredData
  rw [List.filter_eq_self]
  intro d hd
  obtain ⟨m, hm, e⟩ := h d hd
  simp [e, includes, hm]

theorem filteredData_nil_selection (D : List JsObject) : filteredData D [] = [] := by
  unfold filteredData
  rw [List.filter_eq_nil_iff]
  intro d _
  cases h : d.get "month" <;> simp [includes]


/-! ## Generator shape -/

/-- C3: whatever the draws, `generateSyntheticData` returns exactly twelve records and their
`month` fields, read in order, are the twelve names of `monthNames` (each once, none skipped). -/
theorem generateSyntheticData_periods (random : ℕ → ℚ) :
    (generateSyntheticData random).length = 12 ∧
    (generateSyntheticData random).map (fun d => d.get "month") = monthNames.map Value.str ∧
    monthNames.Nodup :=
  ⟨rfl, rfl, by decide⟩

/-! ## Period filter -/

/-- C5, refuted as stated: on the first-render selection two toggles of "March" do not give
back the array they started from; "March" is now listed last. -/
theorem toggle_toggle_reorders :
    toggle "March" (toggle "March" monthNames) ≠ monthNames ∧
    toggle "March" (toggle "March" monthNames)
      = ["January", "February", "April", "May", "June", "July", "August", "September",
         "October", "November", "December", "March"] := by
  decide

/-- C5, amended: toggling the same period twice restores the set of selected periods: the
same periods are selected, every `includes` read of the selection answers as before and
every derived view is unchanged.  The array itself is the original one when `p` was not
selected; when `p` was selected it is the original without `p`, followed by `p`. -/
theorem toggle_toggle_restores (p : String) (s : List String) :
    (toggle p (toggle p s)).toFinset = s.toFinset ∧
    (∀ q, q ∈ toggle p (toggle p s) ↔ q ∈ s) ∧
    (∀ v : Value, includes (toggle p (toggle p s)) v = includes s v) ∧
    (∀ D : List JsObject, filteredData D (toggle p (toggle p s)) = filteredData D s) ∧
    (p ∉ s → toggle p (toggle p s) = s) ∧
    (p ∈ s → toggle p (toggle p s) = s.filter (fun m => decide (m ≠ p)) ++ [p]) := by
  refine ⟨?_, fun q => mem_toggle_toggle p q s, ?_, ?_, toggle_toggle_of_not_mem,
    toggle_toggle_of_mem⟩
  · ext q
    simp only [List.mem_toFinset]
    exact mem_toggle_toggle p q s
  · exact includes_congr (fun q => mem_toggle_toggle p q s)
  · exact filteredData_congr (fun q => mem_toggle_toggle p q s)

/-- Witness for C5 amended, at "March" on the first-render selection. -/
theorem toggle_toggle_restores_witness :
    (toggle "March" (toggle "March" monthNames)).toFinset = monthNames.toFinset ∧
    filteredData [[("month", Value.str "March")]] (toggle "March" (toggle "March" monthNames))
      = filteredData [[("month", Value.str "March")]] monthNames :=
  have h := toggle_toggle_restores "March" monthNames
  ⟨h.1, h.2.2.2.1 _⟩

/-- C6: `toggle p` flips the membership of `p` (present becomes absent, absent becomes
present) and leaves the membership of every other period `q` as it was. -/
theorem toggle_flips_only (s : List String) (p q : String) (h : q ≠ p) :
    (p ∈ toggle p s ↔ p ∉ s) ∧ (q ∈ toggle p s ↔ q ∈ s) :=
  ⟨mem_toggle_self p s, mem_toggle_of_ne s h⟩

/-- Witness for C6: toggling March off the full selection keeps April. -/
theorem toggle_flips_only_witness :
    "April" ≠ "March" ∧
    ("March" ∈ toggle "March" monthNames ↔ "March" ∉ monthNames) ∧
    ("April" ∈ toggle "March" monthNames ↔ "April" ∈ monthNames) :=
  ⟨by decide, toggle_flips_only monthNames "March" "April" (by decide)⟩

/-- C7, refuted as stated: an identifier outside `monthNames` is not rejected.  The change
handler raises nothing and the selection grows by the foreign identifier. -/
theorem toggle_foreign_accepted :
    "Smarch" ∉ monthNames ∧
    toggle "Smarch" monthNames ≠ monthNames ∧
    "Smarch" ∈ toggle "Smarch" monthNames ∧
    step (fun _ => "") initial (Event.change "Smarch")
      = ({ data := [], selectedRange := monthNames ++ ["Smarch"] }, []) := by
  decide

/-- C7, amended: for an identifier `v` outside `monthNames` the change handler completes
without any effect (no error), the FilterState changes (`v` is added when absent, removed
when present), and the view of every generated Dataset stays what it was. -/
theorem toggle_foreign (numText : ℚ → String) (st : State) (v : String)
    (hv : v ∉ monthNames) :
    step numText st (Event.change v)
      = ({ st with selectedRange := toggle v st.selectedRange }, []) ∧
    toggle v st.selectedRange ≠ st.selectedRange ∧
    (v ∈ toggle v st.selectedRange ↔ v ∉ st.selectedRange) ∧
    (∀ random, filteredData (generateSyntheticData random) (toggle v st.selectedRange)
        = filteredData (generateSyntheticData random) st.selectedRange) := by
  refine ⟨rfl, ?_, mem_toggle_self v _, ?_⟩
  · intro e
    have h := mem_toggle_self v st.selectedRange
    rw [e] at h
    by_cases hm : v ∈ st.selectedRange
    · exact (h.mp hm) hm
    · exact hm (h.mpr hm)
  · intro random
    unfold filteredData
    apply List.filter_congr
    intro d hd
    obtain ⟨m, hm, e⟩ := month_of_generated random d hd
    have hne : m ≠ v := fun c => hv (c ▸ hm)
    simp only [e, includes, mem_toggle_of_ne _ hne]

/-- Witness for C7 amended, at `v = "Smarch"` on the first-render state. -/
theorem toggle_foreign_witness :
    "Smarch" ∉ monthNames ∧
    toggle "Smarch" initial.selectedRange ≠ initial.selectedRange :=
  ⟨by decide, (toggle_foreign (fun _ => "") initial "Smarch" (by decide)).2.1⟩

/-- C8: the filter is a total function; on a Dataset whose periods all lie in `monthNames`
the full selection returns the Dataset itself (same records, same order) and the empty
selection returns the empty sequence.  Every generated Dataset is such a Dataset. -/
theorem filteredData_full_and_empty (D : List JsObject)
    (h : ∀ d ∈ D, ∃ m ∈ monthNames, d.get "month" = Value.str m) :
    filteredData D monthNames = D ∧ filteredData D [] = [] ∧
    (∀ random, (∀ d ∈ generateSyntheticData random,
        ∃ m ∈ monthNames, d.get "month" = Value.str m) ∧
      filteredData (generateSyntheticData random) monthNames = generateSyntheticData random ∧
      filteredData (generateSyntheticData random) [] = []) :=
  ⟨filteredData_of_all_selected D monthNames h, filteredData_nil_selection D,
    fun random => ⟨month_of_generated random,
      filteredData_of_all_selected _ _ (month_of_generated random),
      filteredData_nil_selection _⟩⟩

/-- Witness for C8, on a two-record Dataset. -/
theorem filteredData_full_and_empty_witness :
    filteredData [[("month", Value.str "May")], [("month", Value.str "January")]] monthNames
      = [[("month", Value.str "May")], [("month", Value.str "January")]] ∧
    filteredData [[("month", Value.str "May")], [("month", Value.str "January")]] [] = [] :=
  have h := filteredData_full_and_empty
    [[("month", Value.str "May")], [("month", Value.str "January")]]
    (by
      intro d hd
      simp only [List.mem_cons, List.mem_singleton, List.not_mem_nil, or_false] at hd
      rcases hd with rfl | rfl
      · exact ⟨"May", by decide, rfl⟩
      · exact ⟨"January", by decide, rfl⟩)
  ⟨h.1, h.2.1⟩

/-! ## Exporters on degenerate inputs -/

/-- C2, refuted as stated: on the empty array `downloadCSV` fails with the `TypeError` thrown
by `Object.keys(data[0])`, that is, while deriving the headers from the missing first
element; the error is not named `EmptyDataset`. -/
theorem downloadCSV_empty_is_typeError :
    csvContent (fun _ => "") [] = Except.error keysOfUndefined ∧
    keysOfUndefined.name = "TypeError" ∧ keysOfUndefined.name ≠ "EmptyDataset" ∧
    downloadCSV (fun _ => "") [] = [Effect.uncaught keysOfUndefined] :=
  ⟨rfl, rfl, by decide, rfl⟩

/-- C2, amended: on the empty array `downloadCSV` fails with the `TypeError` of
`Object.keys(undefined)`; the handler triggers no download and leaves the state as it was. -/
theorem downloadCSV_empty (numText : ℚ → String) (selectedRange : List String) :
    step numText { data := [], selectedRange := selectedRange } Event.clickDownloadCSV
      = ({ data := [], selectedRange := selectedRange }, [Effect.uncaught keysOfUndefined]) ∧
    (∀ name href, Effect.linkClick name href ∉ downloadCSV numText []) := by
  refine ⟨rfl, ?_⟩
  intro name href hmem
  simp [downloadCSV, csvContent] at hmem

/-- C10: with an unbound handle (`ref.current` is `null`) `exportChart` returns at once for
every filename: no capture is started, no download is triggered, nothing is thrown, and the
Dataset and the FilterState are unchanged. -/
theorem exportChart_unbound (numText : ℚ → String) (st : State) (filename : String) :
    exportChart none filename = [] ∧
    step numText st (Event.clickExportPng none filename) = (st, []) :=
  ⟨rfl, rfl⟩


/-! ## Tabular export -/

theorem intercalate_go_eq_foldl (sep : String) (rows : List String) (acc : String) :
    String.intercalate.go acc sep rows = rows.foldl (fun text a => text ++ sep ++ a) acc := by
  induction rows generalizing acc with
  | nil => rfl
  | cons a rows ih => exact ih _

theorem intercalate_cons (sep a : String) (rows : List String) :
    sep.intercalate (a :: rows) = rows.foldl (fun text x => text ++ sep ++ x) a :=
  intercalate_go_eq_foldl sep rows a

theorem lookup_of_mem_keys (r : JsObject) (k : String) (h : k ∈ r.keys) :
    ∃ v, r.lookup k = some v := by
  induction r with
  | nil => simp [JsObject.keys] at h
  | cons kv r ih =>
    obtain ⟨k', v'⟩ := kv
    by_cases e : k = k'
    · exact ⟨v', by simp [List.lookup_cons, e]⟩
    · have hk : k ∈ JsObject.keys r := by
        simpa [JsObject.keys, e] using h
      obtain ⟨v, hv⟩ := ih hk
      have hb : (k == k') = false := by simpa using e
      exact ⟨v, by rw [List.lookup_cons, hb]; exact hv⟩

theorem row_values (numText : ℚ → String) (r : JsObject) (headers : List String)
    (h : ∀ k ∈ headers, k ∈ r.keys) :
    headers.map (fun header => (r.get header).toText numText)
      = (headers.filterMap r.lookup).map (Value.toText numText) := by
  induction headers with
  | nil => rfl
  | cons k ks ih =>
    obtain ⟨v, hv⟩ := lookup_of_mem_keys r k (h k (List.mem_cons_self _ _))
    have ih' := ih (fun k' hk' => h k' (List.mem_cons_of_mem _ hk'))
    rw [List.map_cons, List.filterMap_cons, hv, List.map_cons, ← ih']
    simp only [JsObject.get, hv, Option.getD_some]

theorem findSome?_eq_none_of_forall (xs : List Value)
    (h : ∀ v ∈ xs, v.toStringError = none) : xs.findSome? Value.toStringError = none := by
  induction xs with
  | nil => rfl
  | cons v xs ih =>
    rw [List.findSome?_cons, h v (List.mem_cons_self _ _)]
    exact ih (fun w hw => h w (List.mem_cons_of_mem _ hw))

theorem join_of_convertible (numText : ℚ → String) (sep : String) (xs : List Value)
    (h : ∀ v ∈ xs, v.toStringError = none) :
    join numText sep xs = Except.ok (sep.intercalate (xs.map (Value.toText numText))) := by
  unfold join
  rw [findSome?_eq_none_of_forall xs h]

theorem join_headers (numText : ℚ → String) (headers : List String) :
    join numText "," (headers.map Value.str) = Except.ok (",".intercalate headers) := by
  rw [join_of_convertible]
  · rw [List.map_map]
    congr 2
    exact List.map_id _
  · intro v hv
    obtain ⟨k, -, rfl⟩ := List.mem_map.mp hv
    rfl

theorem mapM_ok_of_forall {α β : Type} (f : α → Except JsError β) (g : α → β) (l : List α)
    (h : ∀ a ∈ l, f a = Except.ok (g a)) : l.mapM f = Except.ok (l.map g) := by
  induction l with
  | nil => rfl
  | cons a l ih =>
    rw [List.mapM_cons, h a (List.mem_cons_self _ _),
      ih (fun b hb => h b (List.mem_cons_of_mem _ hb))]
    rfl

/-- A value read from a record is one of its values or `undefined`. -/
theorem get_convertible (r : JsObject) (k : String)
    (h : ∀ kv ∈ r, kv.2.toStringError = none) : (r.get k).toStringError = none := by
  unfold JsObject.get
  cases hl : r.lookup k with
  | none => rfl
  | some v =>
    obtain ⟨l₁, l₂, rfl, -⟩ := List.lookup_eq_some_iff.mp hl
    exact h (k, v) (by simp)

theorem csvContent_cons (numText : ℚ → String) (first : JsObject) (rest : List JsObject)
    (hconv : ∀ r ∈ first :: rest, ∀ k ∈ first.keys, (r.get k).toStringError = none) :
    csvContent numText (first :: rest)
      = Except.ok ((first :: rest).foldl
          (fun text r => text ++ "\n" ++
            ",".intercalate (first.keys.map fun header => (r.get header).toText numText))
          (",".intercalate first.keys)) := by
  have hrows : ((first :: rest).map fun row => first.keys.map fun header => row.get header).mapM
      (fun e => join numText "," e)
      = Except.ok (((first :: rest).map fun row =>
          first.keys.map fun header => row.get header).map
            fun e => ",".intercalate (e.map (Value.toText numText))) := by
    apply mapM_ok_of_forall
    intro e he
    obtain ⟨r, hr, rfl⟩ := List.mem_map.mp he
    apply join_of_convertible
    intro v hv
    obtain ⟨k, hk, rfl⟩ := List.mem_map.mp hv
    exact hconv r hr k hk
  have unfolded : csvContent numText (first :: rest)
      = match (first.keys.map Value.str :: (first :: rest).map
            fun row => first.keys.map fun header => row.get header).mapM
              fun e => join numText "," e with
        | Except.error e => Except.error e
        | Except.ok lines => Except.ok ("\n".intercalate lines) := by
    simp only [csvContent, List.getElem?_cons_zero]
  rw [unfolded, List.mapM_cons, join_headers, hrows]
  show Except.ok ("\n".intercalate (_ :: _)) = _
  rw [intercalate_cons, List.foldl_map, List.foldl_map]
  simp only [List.map_map, Function.comp_def]

theorem foldl_rows_congr (rows : List JsObject) (f g : JsObject → String) (init : String)
    (h : ∀ r ∈ rows, f r = g r) :
    rows.foldl (fun text r => text ++ "\n" ++ f r) init
      = rows.foldl (fun text r => text ++ "\n" ++ g r) init := by
  induction rows generalizing init with
  | nil => rfl
  | cons r rows ih =>
    rw [List.foldl_cons, List.foldl_cons, h r (List.mem_cons_self _ _)]
    exact ih _ (fun r' hr' => h r' (List.mem_cons_of_mem _ hr'))

/-- C1, refuted as stated: a one-record list whose only value is a Symbol.  The inner `join`
throws a `TypeError`, so no text is built and nothing is offered for download. -/
theorem downloadCSV_symbol_throws :
    csvContent (fun _ => "") [[("id", Value.symbol "row")]] = Except.error symbolToString ∧
    downloadCSV (fun _ => "") [[("id", Value.symbol "row")]]
      = [Effect.uncaught symbolToString] :=
  ⟨rfl, rfl⟩

/-- C1, amended: for a non-empty list of records that share the field set of the first one
and none of whose values fails to convert to a string (no Symbol, no object whose string
conversion throws), the text built by `downloadCSV` is the header (the first record's field
names joined by commas) followed, for each record in input order, by a newline and that
record's values as text, in header order, joined by commas, with no trailing newline and no
quoting; it is offered for download as `synthetic_data.csv`. -/
theorem downloadCSV_text (numText : ℚ → String) (first : JsObject) (rest : List JsObject)
    (h : ∀ r ∈ rest, ∀ k, k ∈ first.keys ↔ k ∈ r.keys)
    (hconv : ∀ r ∈ first :: rest, ∀ kv ∈ r, kv.2.toStringError = none) :
    csvContent numText (first :: rest) = Except.ok (csvText numText first rest) ∧
    downloadCSV numText (first :: rest)
      = [Effect.linkClick "synthetic_data.csv"
          (Href.objectUrl { content := csvText numText first rest, type := "text/csv" })] := by
  have key : csvContent numText (first :: rest) = Except.ok (csvText numText first rest) := by
    rw [csvContent_cons numText first rest
      (fun r hr k _ => get_convertible r k (hconv r hr))]
    unfold csvText
    congr 1
    apply foldl_rows_congr
    intro r hr
    congr 1
    apply row_values
    intro k hk
    rcases List.mem_cons.mp hr with rfl | hr'
    · exact hk
    · exact (h r hr' k).mp hk
  refine ⟨key, ?_⟩
  unfold downloadCSV
  rw [key]

/-- Witness for C1 amended: the two-record example of the specification. -/
theorem downloadCSV_text_witness :
    csvContent (fun _ => "")
        [[("period", Value.str "January"), ("threatsDetected", Value.num 10)],
         [("period", Value.str "February"), ("threatsDetected", Value.num 20)]]
      = Except.ok "period,threatsDetected\nJanuary,10\nFebruary,20" := by
  have h := (downloadCSV_text (fun _ => "")
    [("period", Value.str "January"), ("threatsDetected", Value.num 10)]
    [[("period", Value.str "February"), ("threatsDetected", Value.num 20)]]
    (by
      intro r hr k
      rw [List.mem_singleton] at hr
      subst hr
      exact Iff.rfl)
    (by decide)).1
  rw [h]
  congr 1


/-! ## End-to-end scenario -/

/-- The header line of a generated Dataset. -/
theorem keys_newRecord (random : ℕ → ℚ) (i k : ℕ) :
    JsObject.keys (newRecord random i k)
      = ["month", "realAccuracy", "syntheticAccuracy", "threatsDetected"] := rfl

theorem filteredData_toggle_march (random : ℕ → ℚ) :
    filteredData (generateSyntheticData random) (toggle "March" monthNames)
      = (generateSyntheticData random).eraseIdx 2 := by
  rw [generateSyntheticData_eq]
  have hs : toggle "March" monthNames
      = ["January", "February", "April", "May", "June", "July", "August", "September",
         "October", "November", "December"] := by decide
  rw [hs]
  simp [filteredData, List.range, List.range.loop, newRecord, monthAt, monthNames,
    JsObject.get, List.lookup, includes, List.eraseIdx]


theorem generateSyntheticData_cons (random : ℕ → ℚ) :
    generateSyntheticData random
      = newRecord random 0 0 ::
          (List.range 11).map fun i => newRecord random (i + 1) (3 * (i + 1)) := rfl

theorem downloadCSV_generated (numText : ℚ → String) (random : ℕ → ℚ) :
    downloadCSV numText (generateSyntheticData random)
      = [Effect.linkClick "synthetic_data.csv" (Href.objectUrl
          { content := (generateSyntheticData random).foldl
              (fun text r => text ++ "\n" ++ ",".intercalate
                (["month", "realAccuracy", "syntheticAccuracy", "threatsDetected"].map
                  fun header => (r.get header).toText numText))
              "month,realAccuracy,syntheticAccuracy,threatsDetected",
            type := "text/csv" })] := by
  have hconv : ∀ r ∈ generateSyntheticData random,
      ∀ k ∈ JsObject.keys (newRecord random 0 0), (r.get k).toStringError = none := by
    intro r hr k hk
    rw [generateSyntheticData_eq] at hr
    obtain ⟨i, hi, rfl⟩ := List.mem_map.mp hr
    rw [List.mem_range] at hi
    rw [keys_newRecord] at hk
    simp only [List.mem_cons, List.mem_singleton, List.not_mem_nil, or_false] at hk
    have hm : (monthAt i).toStringError = none := by
      interval_cases i <;> rfl
    rcases hk with rfl | rfl | rfl | rfl
    · exact hm
    · rfl
    · rfl
    · rfl
  unfold downloadCSV
  rw [generateSyntheticData_cons] at hconv ⊢
  rw [csvContent_cons _ _ _ hconv, keys_newRecord]
  rfl

/-- C9: start from the first render, let the mount effect store a generated Dataset `D`
(all twelve periods selected), then toggle "March".  The FilteredView is `D` without its
third record (the "March" one): eleven records, original order, none named "March".  The
CSV export still serializes the full Dataset: the header line followed by one line for each
of the twelve records, the same effect whatever the FilterState is. -/
theorem march_off_then_export (numText : ℚ → String) (random : ℕ → ℚ) :
    (step numText (step numText initial (Event.mounted random)).1 (Event.change "March")).1
      = { data := generateSyntheticData random, selectedRange := toggle "March" monthNames } ∧
    filteredData (generateSyntheticData random) (toggle "March" monthNames)
      = (generateSyntheticData random).eraseIdx 2 ∧
    ((generateSyntheticData random)[2]?).map (fun d => d.get "month")
      = some (Value.str "March") ∧
    (filteredData (generateSyntheticData random) (toggle "March" monthNames)).length = 11 ∧
    (∀ d ∈ filteredData (generateSyntheticData random) (toggle "March" monthNames),
      d.get "month" ≠ Value.str "March") ∧
    (generateSyntheticData random).length = 12 ∧
    (∀ selectedRange : List String,
      step numText { data := generateSyntheticData random, selectedRange := selectedRange }
          Event.clickDownloadCSV
        = ({ data := generateSyntheticData random, selectedRange := selectedRange },
           [Effect.linkClick "synthetic_data.csv" (Href.objectUrl
             { content := (generateSyntheticData random).foldl
                 (fun text r => text ++ "\n" ++ ",".intercalate
                   (["month", "realAccuracy", "syntheticAccuracy", "threatsDetected"].map
                     fun header => (r.get header).toText numText))
                 "month,realAccuracy,syntheticAccuracy,threatsDetected",
               type := "text/csv" })])) := by
  refine ⟨rfl, filteredData_toggle_march random, rfl, ?_, ?_, rfl, ?_⟩
  · rw [filteredData_toggle_march]
    rfl
  · intro d hd
    have hmem := (List.mem_filter.mp hd).2
    intro e
    rw [e] at hmem
    revert hmem
    decide
  · intro selectedRange
    show (_, downloadCSV numText (generateSyntheticData random)) = _
    rw [downloadCSV_generated]


/-! ## Rounding -/

theorem rne_le {y : ℚ} {n : ℤ} (h : y ≤ n) : rne y ≤ n := by
  have hf : ⌊y⌋ ≤ n := by
    have := Int.floor_le y
    exact_mod_cast (this.trans h)
  have hstep : (1 : ℚ) / 2 ≤ y - ⌊y⌋ → ⌊y⌋ + 1 ≤ n := by
    intro hh
    have hlt : (⌊y⌋ : ℚ) < n := by linarith
    have : ⌊y⌋ < n := by exact_mod_cast hlt
    omega
  unfold rne
  split_ifs with h1 h2 h3
  · exact hf
  · exact hstep (le_of_lt h2)
  · exact hf
  · exact hstep (not_lt.mp h1)

theorem le_rne {y : ℚ} {n : ℤ} (h : (n : ℚ) ≤ y) : n ≤ rne y := by
  have hf : n ≤ ⌊y⌋ := Int.le_floor.mpr h
  unfold rne
  split_ifs <;> omega

theorem rne_le_of_lt_half {y : ℚ} {n : ℤ} (h : y < n + 1 / 2) : rne y ≤ n := by
  have hf : ⌊y⌋ ≤ n := by
    have h1 : (⌊y⌋ : ℚ) < n + 1 := by
      have := Int.floor_le y
      linarith
    have : ⌊y⌋ < n + 1 := by exact_mod_cast h1
    omega
  rcases lt_or_eq_of_le hf with hlt | heq
  · unfold rne
    split_ifs <;> omega
  · have hfrac : y - ⌊y⌋ < 1 / 2 := by
      rw [heq]; linarith
    unfold rne
    rw [if_pos hfrac]
    exact hf

theorem le_rne_of_half_lt {y : ℚ} {n : ℤ} (h : (n : ℚ) - 1 / 2 < y) : n ≤ rne y := by
  have hf : n - 1 ≤ ⌊y⌋ := by
    apply Int.le_floor.mpr
    push_cast
    linarith
  rcases lt_or_eq_of_le hf with hlt | heq
  · unfold rne
    split_ifs <;> omega
  · have hfrac : (1 : ℚ) / 2 < y - ⌊y⌋ := by
      rw [← heq]; push_cast; linarith
    unfold rne
    rw [if_neg (not_lt.mpr (le_of_lt hfrac)), if_pos hfrac]
    omega

theorem rne_eq {y : ℚ} {n : ℤ} (h1 : (n : ℚ) - 1 / 2 < y) (h2 : y < n + 1 / 2) : rne y = n :=
  le_antisymm (rne_le_of_lt_half h2) (le_rne_of_half_lt h1)

theorem two_zpow_pos (k : ℤ) : (0 : ℚ) < (2 : ℚ) ^ k := zpow_pos (by norm_num) k

theorem ulp_pos (x : ℚ) : 0 < ulp x := two_zpow_pos _

theorem expo_ge (x : ℚ) : -1022 ≤ expo x := le_max_right _ _

theorem expo_le_of_lt {x : ℚ} {e : ℤ} (hx : 0 < x) (h : x < (2 : ℚ) ^ (e + 1)) (he : -1022 ≤ e) :
    expo x ≤ e := by
  unfold expo
  apply max_le _ he
  rw [abs_of_pos hx]
  have := (Int.lt_zpow_iff_log_lt (R := ℚ) (b := 2) (by norm_num) hx (x := e + 1)).mp
    (by simpa using h)
  omega

theorem expo_eq {x : ℚ} {e : ℤ} (hx : 0 < x) (h1 : (2 : ℚ) ^ e ≤ x) (h2 : x < (2 : ℚ) ^ (e + 1))
    (he : -1022 ≤ e) : expo x = e := by
  apply le_antisymm (expo_le_of_lt hx h2 he)
  unfold expo
  rw [abs_of_pos hx]
  apply le_max_of_le_left
  exact (Int.zpow_le_iff_le_log (R := ℚ) (b := 2) (by norm_num) hx).mp (by simpa using h1)

theorem fl_zero : fl 0 = 0 := by
  unfold fl
  rw [zero_div]
  have : rne 0 = 0 := rne_eq (n := 0) (by norm_num) (by norm_num)
  rw [this]
  simp

theorem fl_nonneg {x : ℚ} (hx : 0 ≤ x) : 0 ≤ fl x := by
  unfold fl
  apply mul_nonneg _ (le_of_lt (ulp_pos x))
  have : (0 : ℤ) ≤ rne (x / ulp x) := le_rne (by
    simpa using div_nonneg hx (le_of_lt (ulp_pos x)))
  exact_mod_cast this

/-- Rounding inside a known binade. -/
theorem fl_of_binade {x : ℚ} {e : ℤ} (hx : 0 < x) (h1 : (2 : ℚ) ^ e ≤ x)
    (h2 : x < (2 : ℚ) ^ (e + 1)) (he : -1022 ≤ e) :
    fl x = rne (x / (2 : ℚ) ^ (e - 52)) * (2 : ℚ) ^ (e - 52) := by
  unfold fl ulp
  rw [expo_eq hx h1 h2 he]

/-- Evaluation of a rounding from its binade and its nearest grid point. -/
theorem fl_eval {x : ℚ} (e n : ℤ) (hx : 0 < x) (h1 : (2 : ℚ) ^ e ≤ x)
    (h2 : x < (2 : ℚ) ^ (e + 1)) (he : -1022 ≤ e)
    (hn1 : (n : ℚ) - 1 / 2 < x / (2 : ℚ) ^ (e - 52))
    (hn2 : x / (2 : ℚ) ^ (e - 52) < n + 1 / 2) :
    fl x = n * (2 : ℚ) ^ (e - 52) := by
  rw [fl_of_binade hx h1 h2 he, rne_eq hn1 hn2]

/-- Rounding never crosses a point `M * 2 ^ K` of a grid at least as coarse as its own. -/
theorem fl_le_grid {x : ℚ} (M K : ℤ) (hx : 0 ≤ x) (hle : x ≤ M * (2 : ℚ) ^ K)
    (hlt : x < (2 : ℚ) ^ (K + 53)) (hK : -1074 ≤ K) : fl x ≤ M * (2 : ℚ) ^ K := by
  rcases eq_or_lt_of_le hx with h0 | hpos
  · rw [← h0, fl_zero]; rw [← h0] at hle; exact hle
  have he : expo x ≤ K + 52 := expo_le_of_lt hpos (by simpa [add_assoc] using hlt) (by omega)
  obtain ⟨d, hd⟩ : ∃ d : ℕ, K = expo x - 52 + d := ⟨(K - (expo x - 52)).toNat, by omega⟩
  have hgrid : M * (2 : ℚ) ^ K = ((M * 2 ^ d : ℤ) : ℚ) * ulp x := by
    unfold ulp
    rw [hd, zpow_add₀ (by norm_num : (2 : ℚ) ≠ 0)]
    push_cast
    rw [zpow_natCast]
    ring
  have hr : rne (x / ulp x) ≤ M * 2 ^ d := by
    apply rne_le
    rw [div_le_iff₀ (ulp_pos x), ← hgrid]
    exact hle
  unfold fl
  rw [hgrid]
  apply mul_le_mul_of_nonneg_right _ (le_of_lt (ulp_pos x))
  exact_mod_cast hr


/-! ## The literals of the generator -/

theorem fl_one_tenth : fl (1 / 10) = 7205759403792794 * (2 : ℚ) ^ (-56 : ℤ) := by
  have := fl_eval (x := 1 / 10) (-4) 7205759403792794 (by norm_num) (by norm_num)
    (by norm_num) (by norm_num) (by norm_num) (by norm_num)
  simpa using this

theorem fl_eight_tenths : fl (8 / 10) = 7205759403792794 * (2 : ℚ) ^ (-53 : ℤ) := by
  have := fl_eval (x := 8 / 10) (-1) 7205759403792794 (by norm_num) (by norm_num)
    (by norm_num) (by norm_num) (by norm_num) (by norm_num)
  simpa using this

theorem fl_nine_tenths : fl (9 / 10) = 8106479329266893 * (2 : ℚ) ^ (-53 : ℤ) := by
  have := fl_eval (x := 9 / 10) (-1) 8106479329266893 (by norm_num) (by norm_num)
    (by norm_num) (by norm_num) (by norm_num) (by norm_num)
  simpa using this

theorem fl_85_hundredths : fl (85 / 100) = 7656119366529843 * (2 : ℚ) ^ (-53 : ℤ) := by
  have := fl_eval (x := 85 / 100) (-1) 7656119366529843 (by norm_num) (by norm_num)
    (by norm_num) (by norm_num) (by norm_num) (by norm_num)
  simpa using this

theorem fl_5_hundredths : fl (5 / 100) = 7205759403792794 * (2 : ℚ) ^ (-57 : ℤ) := by
  have := fl_eval (x := 5 / 100) (-5) 7205759403792794 (by norm_num) (by norm_num)
    (by norm_num) (by norm_num) (by norm_num) (by norm_num)
  simpa using this


/-! ## Range of the generated values -/

/-- A product `r * c` with `0 ≤ r < 1` rounds into `[0, c]` when `c = M * 2 ^ K` is a point
of a grid that the binades below `2 ^ (K + 53)` refine. -/
theorem fmul_mem {r c : ℚ} (M K : ℤ) (hc : c = M * (2 : ℚ) ^ K) (hc0 : 0 ≤ c)
    (hlt : c < (2 : ℚ) ^ (K + 53)) (hK : -1074 ≤ K) (h0 : 0 ≤ r) (h1 : r < 1) :
    0 ≤ fmul r c ∧ fmul r c ≤ c := by
  have hle : r * c ≤ c := by nlinarith
  refine ⟨fl_nonneg (mul_nonneg h0 hc0), ?_⟩
  have := fl_le_grid (x := r * c) M K (mul_nonneg h0 hc0) (hc ▸ hle) (lt_of_le_of_lt hle hlt) hK
  rw [← hc] at this
  exact this

/-- Bounds on a rounding inside a known binade, from bounds on the exact value. -/
theorem fl_binade_bounds {s : ℚ} (e lo hi : ℤ) (hs1 : (2 : ℚ) ^ e ≤ s)
    (hs2 : s < (2 : ℚ) ^ (e + 1)) (he : -1022 ≤ e)
    (hlo : (lo : ℚ) * (2 : ℚ) ^ (e - 52) ≤ s)
    (hhi : s < ((hi : ℚ) + 1 / 2) * (2 : ℚ) ^ (e - 52)) :
    (lo : ℚ) * (2 : ℚ) ^ (e - 52) ≤ fl s ∧ fl s ≤ (hi : ℚ) * (2 : ℚ) ^ (e - 52) := by
  have hs0 : 0 < s := lt_of_lt_of_le (two_zpow_pos e) hs1
  have hu := two_zpow_pos (e - 52)
  rw [fl_of_binade hs0 hs1 hs2 he]
  have h1 : lo ≤ rne (s / (2 : ℚ) ^ (e - 52)) := le_rne (by rwa [le_div_iff₀ hu])
  have h2 : rne (s / (2 : ℚ) ^ (e - 52)) ≤ hi := rne_le_of_lt_half (by rwa [div_lt_iff₀ hu])
  constructor
  · exact mul_le_mul_of_nonneg_right (by exact_mod_cast h1) (le_of_lt hu)
  · exact mul_le_mul_of_nonneg_right (by exact_mod_cast h2) (le_of_lt hu)

theorem realAccuracy_range {r : ℚ} (h0 : 0 ≤ r) (h1 : r < 1) :
    fl (8 / 10) ≤ fadd (fl (8 / 10)) (fmul r (fl (1 / 10))) ∧
    fadd (fl (8 / 10)) (fmul r (fl (1 / 10))) ≤ fl (9 / 10) := by
  obtain ⟨hy0, hy1⟩ := fmul_mem (r := r) (c := fl (1 / 10)) 7205759403792794 (-56)
    fl_one_tenth (by rw [fl_one_tenth]; norm_num) (by rw [fl_one_tenth]; norm_num)
    (by norm_num) h0 h1
  generalize fmul r (fl (1 / 10)) = y at hy0 hy1
  rw [fl_one_tenth] at hy1
  rw [fl_eight_tenths, fl_nine_tenths]
  norm_num at hy1
  have := fl_binade_bounds (s := 7205759403792794 * (2 : ℚ) ^ (-53 : ℤ) + y) (-1)
    7205759403792794 8106479329266893
    (by norm_num; linarith) (by norm_num; linarith) (by norm_num)
    (by norm_num; linarith) (by norm_num; linarith)
  simpa [fadd] using this

theorem syntheticAccuracy_range {r : ℚ} (h0 : 0 ≤ r) (h1 : r < 1) :
    fl (85 / 100) ≤ fadd (fl (85 / 100)) (fmul r (fl (5 / 100))) ∧
    fadd (fl (85 / 100)) (fmul r (fl (5 / 100))) ≤ fl (9 / 10) := by
  obtain ⟨hy0, hy1⟩ := fmul_mem (r := r) (c := fl (5 / 100)) 7205759403792794 (-57)
    fl_5_hundredths (by rw [fl_5_hundredths]; norm_num) (by rw [fl_5_hundredths]; norm_num)
    (by norm_num) h0 h1
  generalize fmul r (fl (5 / 100)) = y at hy0 hy1
  rw [fl_5_hundredths] at hy1
  rw [fl_85_hundredths, fl_nine_tenths]
  norm_num at hy1
  have := fl_binade_bounds (s := 7656119366529843 * (2 : ℚ) ^ (-53 : ℤ) + y) (-1)
    7656119366529843 8106479329266893
    (by norm_num; linarith) (by norm_num; linarith) (by norm_num)
    (by norm_num; linarith) (by norm_num; linarith)
  simpa [fadd] using this


/-- The largest double below `1` is `1 - 2 ^ (-53)`. -/
theorem le_pred_one {r : ℚ} (hd : isDouble r) (h1 : r < 1) :
    r ≤ 1 - 1 / 2 ^ 53 := by
  rcases lt_or_le r (1 / 2) with hlt | hge
  · have : (1 : ℚ) / 2 ≤ 1 - 1 / 2 ^ 53 := by norm_num
    linarith
  · have hr0 : 0 < r := by linarith
    have hfl := fl_of_binade (x := r) (e := -1) hr0 (by norm_num; linarith)
      (by norm_num; linarith) (by norm_num)
    rw [hd.1] at hfl
    have hu : (2 : ℚ) ^ ((-1 : ℤ) - 52) = 1 / 2 ^ 53 := by norm_num
    rw [hu] at hfl
    set n : ℤ := rne (r / (1 / 2 ^ 53)) with hn
    have hlt : (n : ℚ) < 2 ^ 53 := by
      have : (n : ℚ) * (1 / 2 ^ 53) < 1 := by rw [← hfl]; exact h1
      have h2 : (0 : ℚ) < 2 ^ 53 := by norm_num
      rw [mul_one_div, div_lt_one h2] at this
      exact this
    have hle : n ≤ 2 ^ 53 - 1 := by
      have : n < 2 ^ 53 := by exact_mod_cast hlt
      omega
    have hle' : (n : ℚ) ≤ 2 ^ 53 - 1 := by exact_mod_cast hle
    rw [hfl]
    have h2 : (0 : ℚ) < 1 / 2 ^ 53 := by norm_num
    calc (n : ℚ) * (1 / 2 ^ 53) ≤ (2 ^ 53 - 1) * (1 / 2 ^ 53) :=
          mul_le_mul_of_nonneg_right hle' (le_of_lt h2)
      _ = 1 - 1 / 2 ^ 53 := by norm_num

theorem threatsDetected_range {r : ℚ} (hd : isDouble r) (h0 : 0 ≤ r) (h1 : r < 1) :
    0 ≤ ⌊fmul r 100⌋ ∧ ⌊fmul r 100⌋ < 100 := by
  have hr := le_pred_one hd h1
  have hx0 : 0 ≤ r * 100 := by linarith
  constructor
  · exact Int.floor_nonneg.mpr (fl_nonneg hx0)
  · rw [Int.floor_lt]
    unfold fmul
    rcases lt_or_le (r * 100) 64 with hlt | hge
    · have := fl_le_grid (x := r * 100) 1 6 hx0 (by norm_num; linarith)
        (by norm_num; linarith) (by norm_num)
      norm_num at this
      push_cast
      linarith
    · have := (fl_binade_bounds (s := r * 100) 6 0 (100 * 2 ^ 46 - 1)
        (by norm_num; linarith) (by norm_num; linarith) (by norm_num)
        (by norm_num; linarith) (by norm_num; linarith)).2
      norm_num at this
      push_cast
      linarith


theorem isDouble_zero : isDouble 0 := ⟨fl_zero, by norm_num⟩

theorem isDouble_pred_one : isDouble (1 - 1 / 2 ^ 53) := by
  constructor
  · have := fl_eval (x := 1 - 1 / 2 ^ 53) (-1) (2 ^ 53 - 1) (by norm_num) (by norm_num)
      (by norm_num) (by norm_num) (by norm_num) (by norm_num)
    rw [this]
    norm_num
  · rw [abs_of_nonneg (by norm_num)]
    norm_num

/-- C4, amended: when every draw is a double `r` with `0 ≤ r < 1`, every generated record has
`realAccuracy` between the doubles `0.8` and `0.9` and `syntheticAccuracy` between the
doubles `0.85` and `0.9`, both ends included, and `threatsDetected` an integer `t` with
`0 ≤ t < 100`. -/
theorem generated_values_in_range (random : ℕ → ℚ)
    (h : ∀ k, isDouble (random k) ∧ 0 ≤ random k ∧ random k < 1) :
    ∀ d ∈ generateSyntheticData random, ∃ (x y : ℚ) (t : ℤ),
      d.get "realAccuracy" = Value.num x ∧ fl (8 / 10) ≤ x ∧ x ≤ fl (9 / 10) ∧
      d.get "syntheticAccuracy" = Value.num y ∧ fl (85 / 100) ≤ y ∧ y ≤ fl (9 / 10) ∧
      d.get "threatsDetected" = Value.num t ∧ 0 ≤ t ∧ t < 100 := by
  intro d hd
  rw [generateSyntheticData_eq] at hd
  obtain ⟨i, -, rfl⟩ := List.mem_map.mp hd
  obtain ⟨-, ha0, ha1⟩ := h (3 * i)
  obtain ⟨-, hb0, hb1⟩ := h (3 * i + 1)
  obtain ⟨hcd, hc0, hc1⟩ := h (3 * i + 2)
  exact ⟨_, _, _, rfl, (realAccuracy_range ha0 ha1).1, (realAccuracy_range ha0 ha1).2,
    rfl, (syntheticAccuracy_range hb0 hb1).1, (syntheticAccuracy_range hb0 hb1).2,
    rfl, (threatsDetected_range hcd hc0 hc1).1, (threatsDetected_range hcd hc0 hc1).2⟩

/-- Witness for C4 amended: all draws equal to `0`. -/
theorem generated_values_in_range_witness :
    (∀ k : ℕ, isDouble ((fun _ => (0 : ℚ)) k) ∧ (0 : ℚ) ≤ (fun _ => (0 : ℚ)) k ∧
      (fun _ => (0 : ℚ)) k < 1) ∧
    ∀ d ∈ generateSyntheticData (fun _ => 0), ∃ (x y : ℚ) (t : ℤ),
      d.get "realAccuracy" = Value.num x ∧ fl (8 / 10) ≤ x ∧ x ≤ fl (9 / 10) ∧
      d.get "syntheticAccuracy" = Value.num y ∧ fl (85 / 100) ≤ y ∧ y ≤ fl (9 / 10) ∧
      d.get "threatsDetected" = Value.num t ∧ 0 ≤ t ∧ t < 100 :=
  ⟨fun _ => ⟨isDouble_zero, le_refl _, by norm_num⟩,
   generated_values_in_range (fun _ => 0) (fun _ => ⟨isDouble_zero, le_refl _, by norm_num⟩)⟩

theorem fmul_pred_one_tenth :
    fmul (1 - 1 / 2 ^ 53) (fl (1 / 10)) = 7205759403792793 * (2 : ℚ) ^ (-56 : ℤ) := by
  rw [fl_one_tenth]
  have := fl_eval (x := (1 - 1 / 2 ^ 53) * (7205759403792794 * (2 : ℚ) ^ (-56 : ℤ))) (-4)
    7205759403792793 (by norm_num) (by norm_num) (by norm_num) (by norm_num)
    (by norm_num) (by norm_num)
  simpa [fmul] using this

theorem fmul_pred_5_hundredths :
    fmul (1 - 1 / 2 ^ 53) (fl (5 / 100)) = 7205759403792793 * (2 : ℚ) ^ (-57 : ℤ) := by
  rw [fl_5_hundredths]
  have := fl_eval (x := (1 - 1 / 2 ^ 53) * (7205759403792794 * (2 : ℚ) ^ (-57 : ℤ))) (-5)
    7205759403792793 (by norm_num) (by norm_num) (by norm_num) (by norm_num)
    (by norm_num) (by norm_num)
  simpa [fmul] using this

theorem realAccuracy_at_pred_one :
    fadd (fl (8 / 10)) (fmul (1 - 1 / 2 ^ 53) (fl (1 / 10))) = fl (9 / 10) := by
  rw [fmul_pred_one_tenth, fl_eight_tenths, fl_nine_tenths]
  have := fl_eval (x := 7205759403792794 * (2 : ℚ) ^ (-53 : ℤ)
      + 7205759403792793 * (2 : ℚ) ^ (-56 : ℤ)) (-1)
    8106479329266893 (by norm_num) (by norm_num) (by norm_num) (by norm_num)
    (by norm_num) (by norm_num)
  simpa [fadd] using this

theorem syntheticAccuracy_at_pred_one :
    fadd (fl (85 / 100)) (fmul (1 - 1 / 2 ^ 53) (fl (5 / 100))) = fl (9 / 10) := by
  rw [fmul_pred_5_hundredths, fl_85_hundredths, fl_nine_tenths]
  have := fl_eval (x := 7656119366529843 * (2 : ℚ) ^ (-53 : ℤ)
      + 7205759403792793 * (2 : ℚ) ^ (-57 : ℤ)) (-1)
    8106479329266893 (by norm_num) (by norm_num) (by norm_num) (by norm_num)
    (by norm_num) (by norm_num)
  simpa [fadd] using this

theorem realAccuracy_at_pred_pred_one :
    fadd (fl (8 / 10)) (fmul (1 - 1 / 2 ^ 52) (fl (1 / 10))) = fl (9 / 10) := by
  have hm : fmul (1 - 1 / 2 ^ 52) (fl (1 / 10)) = 7205759403792792 * (2 : ℚ) ^ (-56 : ℤ) := by
    rw [fl_one_tenth]
    have := fl_eval (x := (1 - 1 / 2 ^ 52) * (7205759403792794 * (2 : ℚ) ^ (-56 : ℤ))) (-4)
      7205759403792792 (by norm_num) (by norm_num) (by norm_num) (by norm_num)
      (by norm_num) (by norm_num)
    simpa [fmul] using this
  rw [hm, fl_eight_tenths, fl_nine_tenths]
  have := fl_eval (x := 7205759403792794 * (2 : ℚ) ^ (-53 : ℤ)
      + 7205759403792792 * (2 : ℚ) ^ (-56 : ℤ)) (-1)
    8106479329266893 (by norm_num) (by norm_num) (by norm_num) (by norm_num)
    (by norm_num) (by norm_num)
  simpa [fadd] using this

/-- C4, refuted as stated: with every draw equal to the double `1 - 2 ^ (-53)`, which lies
in `[0, 1)`, the first generated record has `realAccuracy` and `syntheticAccuracy` equal to
the double `0.9`, whose exact value exceeds `9 / 10`; neither is below `0.9`. -/
theorem accuracy_reaches_nine_tenths :
    isDouble (1 - 1 / 2 ^ 53) ∧ (0 : ℚ) ≤ 1 - 1 / 2 ^ 53 ∧ (1 - 1 / 2 ^ 53 : ℚ) < 1 ∧
    newRecord (fun _ => 1 - 1 / 2 ^ 53) 0 0 ∈ generateSyntheticData (fun _ => 1 - 1 / 2 ^ 53) ∧
    (newRecord (fun _ => 1 - 1 / 2 ^ 53) 0 0).get "realAccuracy" = Value.num (fl (9 / 10)) ∧
    (newRecord (fun _ => 1 - 1 / 2 ^ 53) 0 0).get "syntheticAccuracy"
      = Value.num (fl (9 / 10)) ∧
    ¬ fl (9 / 10) < fl (9 / 10) ∧ (9 / 10 : ℚ) < fl (9 / 10) := by
  refine ⟨isDouble_pred_one, by norm_num, by norm_num, ?_, ?_, ?_, lt_irrefl _, ?_⟩
  · rw [generateSyntheticData_cons]
    exact List.mem_cons_self _ _
  · show Value.num (fadd (fl (8 / 10)) (fmul (1 - 1 / 2 ^ 53) (fl (1 / 10)))) = _
    rw [realAccuracy_at_pred_one]
  · show Value.num (fadd (fl (85 / 100)) (fmul (1 - 1 / 2 ^ 53) (fl (5 / 100)))) = _
    rw [syntheticAccuracy_at_pred_one]
  · rw [fl_nine_tenths]
    norm_num


end Dashboard
